import Mathlib

/-!
Verification development for the custom-tool subsystem of the talkcody
repository: module resolution (`src/lib/custom-tool-sdk/import-map.ts`),
compilation shim (`src/services/tools/custom-tool-compiler.ts`), discovery
and loading (`src/services/tools/custom-tool-refresh.ts`), the permission
store (`src/stores/custom-tool-permission-store.ts`,
`src/services/tools/custom-tool-permission.ts`) and the tool adapter
(`src/services/tools/custom-tool-registry.tsx`).

JavaScript `Map` objects are modelled as association lists with
set-replaces / delete-removes semantics; thrown exceptions are modelled
with `Except String`; `undefined` results are modelled with `Option`.
Module values are opaque and modelled as `Nat`.
-/

namespace TalkCody

/-- Opaque model of a JavaScript module value (module namespace objects,
registered module references, and so on). -/
abbrev ModVal := Nat

/-! ## Association-list model of JavaScript `Map` -/

/-- `Map.get` / key lookup: first entry with the given key. -/
def mapGet {V : Type} : List (String × V) → String → Option V
  | [], _ => none
  | (k', v) :: rest, k => if k' = k then some v else mapGet rest k

/-- `Map.set`: replace the value in place if the key exists, else append. -/
def mapSet {V : Type} : List (String × V) → String → V → List (String × V)
  | [], k, v => [(k, v)]
  | (k', v') :: rest, k, v =>
    if k' = k then (k, v) :: rest else (k', v') :: mapSet rest k v

/-- `Map.delete`: remove the entry for a key (all occurrences; states built
by `mapSet` have unique keys, so this matches `Map.delete`). -/
def mapDelete {V : Type} (m : List (String × V)) (k : String) : List (String × V) :=
  m.filter (fun kv => kv.1 ≠ k)

/-- `Map.has`. -/
def mapHas {V : Type} (m : List (String × V)) (k : String) : Bool :=
  (mapGet m k).isSome

/-! ## Permission store (`src/stores/custom-tool-permission-store.ts`) -/

/-- The closed capability enum `CustomToolPermission` from
`src/types/custom-tool.ts`: `'fs' | 'net' | 'command'`. -/
inductive CustomToolPermission where
  | fs
  | net
  | command
deriving DecidableEq, Repr

/-- `CustomToolPermissionGrant` from the permission store. -/
structure CustomToolPermissionGrant where
  toolName : String
  permissions : List CustomToolPermission
  grantedAt : Nat
deriving DecidableEq, Repr

/-- The store's `grants` map: tool name → grant record. -/
abbrev GrantStore := List (String × CustomToolPermissionGrant)

/-- `grantPermission` from the store: `next.set(toolName, { toolName,
permissions, grantedAt: Date.now() })`; `now` models `Date.now()`. -/
def grantPermission (grants : GrantStore) (toolName : String)
    (permissions : List CustomToolPermission) (now : Nat) : GrantStore :=
  mapSet grants toolName ⟨toolName, permissions, now⟩

/-- `revokePermission` from the store: `next.delete(toolName)`. -/
def revokePermission (grants : GrantStore) (toolName : String) : GrantStore :=
  mapDelete grants toolName

/-- `getGrant` from the store: `grants.get(toolName)`. -/
def getGrant (grants : GrantStore) (toolName : String) :
    Option CustomToolPermissionGrant :=
  mapGet grants toolName

/-! ## Permission checks (`src/services/tools/custom-tool-permission.ts`) -/

/-- `PermissionCheckResult`. -/
structure PermissionCheckResult where
  allowed : Bool
  missing : List CustomToolPermission
deriving DecidableEq, Repr

/-- `checkCustomToolPermissions(toolName, requested)`: empty request is
allowed outright; otherwise the grant for the tool is consulted and the
missing subset computed by filtering. -/
def checkCustomToolPermissions (grants : GrantStore) (toolName : String)
    (requested : List CustomToolPermission) : PermissionCheckResult :=
  if requested.length = 0 then
    ⟨true, []⟩
  else
    match getGrant grants toolName with
    | none => ⟨false, requested⟩
    | some grant =>
      let missing := requested.filter (fun p => ¬ grant.permissions.contains p)
      if missing.length > 0 then ⟨false, missing⟩ else ⟨true, []⟩

/-- `ensureCustomToolPermissions(toolName, permissions)`: unconditionally
delegates to the store's `grantPermission`. -/
def ensureCustomToolPermissions (grants : GrantStore) (toolName : String)
    (permissions : List CustomToolPermission) (now : Nat) : GrantStore :=
  grantPermission grants toolName permissions now

/-! ## Tool adapter (`src/services/tools/custom-tool-registry.tsx`) -/

/-- The fields of `CustomToolDefinition` that the adapter's execute wrapper
reads; the definition's own `execute` outcome is opaque. -/
structure CustomToolDefinitionModel where
  name : String
  permissions : Option (List CustomToolPermission)
  executeResult : Nat
deriving DecidableEq, Repr

/-- The permission phase of the adapter's execute wrapper in
`adaptCustomTool`: `const requested = definition.permissions ?? [];
if (requested.length > 0) ensureCustomToolPermissions(...)`. -/
def adaptedExecutePermissionPhase (defn : CustomToolDefinitionModel)
    (now : Nat) (grants : GrantStore) : GrantStore :=
  let requested := defn.permissions.getD []
  if requested.length > 0 then
    ensureCustomToolPermissions grants defn.name requested now
  else
    grants

/-- The adapter's execute wrapper: runs the permission phase, then invokes
the definition's own execute; returned pair is (store state at the moment
`definition.execute` is invoked, its opaque result). -/
def adaptedExecute (defn : CustomToolDefinitionModel) (now : Nat)
    (grants : GrantStore) : GrantStore × Nat :=
  (adaptedExecutePermissionPhase defn now grants, defn.executeResult)

/-! ## String helpers (JS string methods) -/

/-- Lower-case every character (models a JS case-insensitive `/i` regex
comparison). -/
def lowerStr (s : String) : String :=
  String.mk (s.data.map Char.toLower)

/-- JS `String.prototype.endsWith` (case-sensitive). -/
def endsWithCS (s suffix : String) : Bool :=
  suffix.data.isSuffixOf s.data

/-- Case-insensitive suffix test, for `/.../i` anchored regexes. -/
def endsWithCI (s suffix : String) : Bool :=
  endsWithCS (lowerStr s) (lowerStr suffix)

/-- JS `String.prototype.startsWith`. -/
def jsStartsWith (s p : String) : Bool :=
  p.data.isPrefixOf s.data

/-! ## Discovery (`src/services/tools/custom-tool-refresh.ts`) -/

/-- A directory entry as returned by `readDir`. -/
structure DirEntry where
  name : String
  isFile : Bool
deriving DecidableEq, Repr

/-- `'custom' | 'workspace' | 'user'`. -/
inductive CustomToolSource where
  | custom
  | workspace
  | user
deriving DecidableEq, Repr

/-- `hasCustomToolExtension(fileName)`: the test of the regex
`/.*[-_]tool\.tsx?$/i`, which holds exactly when the name case-insensitively
ends in `-tool` or `_tool` immediately before `.ts` or `.tsx`. -/
def hasCustomToolExtension (fileName : String) : Bool :=
  endsWithCI fileName "-tool.ts" || endsWithCI fileName "_tool.ts" ||
    endsWithCI fileName "-tool.tsx" || endsWithCI fileName "_tool.tsx"

/-- `getToolNameFromFile(fileName)`: strip a case-insensitive trailing
`.tsx` or `.ts` extension (`fileName.replace(/\.(tsx|ts)$/i, '')`). -/
def getToolNameFromFile (fileName : String) : String :=
  if endsWithCI fileName ".tsx" then
    String.mk (fileName.data.take (fileName.data.length - 4))
  else if endsWithCI fileName ".ts" then
    String.mk (fileName.data.take (fileName.data.length - 3))
  else fileName

/-- The entry filter inside `loadCustomTools`: skip non-files, skip names
ending in `.d.ts` (case-sensitive `endsWith`), keep names passing
`hasCustomToolExtension`. -/
def keepEntry (e : DirEntry) : Bool :=
  e.isFile && !endsWithCS e.name ".d.ts" && hasCustomToolExtension e.name

/-- The candidate predicate in the words of the claim: a file whose name
case-insensitively ends with a `-tool` suffix immediately before a `.ts`
or `.tsx` extension and is not a `.d.ts` file (stated for comparison with
`keepEntry`, which embeds the source's regex). -/
def claimToolFileCandidate (e : DirEntry) : Bool :=
  e.isFile &&
    (endsWithCI e.name "-tool.ts" || endsWithCI e.name "-tool.tsx") &&
    !endsWithCS e.name ".d.ts"

/-! ## Playground module support (`src/lib/custom-tool-sdk/import-map.ts`) -/

/-- The playground-related module state: `playgroundResolvers` (resolver
functions, opaque) and the single shared `playgroundModuleCache`. -/
structure PlaygroundState where
  resolvers : List (String × Nat)
  cache : List (String × ModVal)
deriving DecidableEq, Repr

/-- The cache key built inside `createPlaygroundModuleResolver`:
`` `${playgroundId}:${specifier}` ``. -/
def playgroundCacheKey (playgroundId specifier : String) : String :=
  playgroundId ++ ":" ++ specifier

/-- `registerPlaygroundResolver(playgroundId, resolver)`. -/
def registerPlaygroundResolver (st : PlaygroundState) (playgroundId : String)
    (resolver : Nat) : PlaygroundState :=
  { st with resolvers := mapSet st.resolvers playgroundId resolver }

/-- The cache write inside `createPlaygroundModuleResolver`'s resolver:
`playgroundModuleCache.set(cacheKey, module)` for a defined module. -/
def recordPlaygroundModule (st : PlaygroundState) (playgroundId specifier : String)
    (v : ModVal) : PlaygroundState :=
  { st with cache := mapSet st.cache (playgroundCacheKey playgroundId specifier) v }

/-- `unregisterPlaygroundResolver(playgroundId)`: deletes that resolver and
calls `playgroundModuleCache.clear()`. -/
def unregisterPlaygroundResolver (st : PlaygroundState) (playgroundId : String) :
    PlaygroundState :=
  { resolvers := mapDelete st.resolvers playgroundId, cache := [] }

/-- `clearPlaygroundCache(playgroundId)`: deletes every cache key that
starts with `` `${playgroundId}:` ``. -/
def clearPlaygroundCache (st : PlaygroundState) (playgroundId : String) :
    PlaygroundState :=
  { st with
    cache := st.cache.filter (fun kv => !jsStartsWith kv.1 (playgroundId ++ ":")) }

/-! ## Module resolver (`src/lib/custom-tool-sdk/import-map.ts`) -/

/-- The keys of the fixed `builtinLoaders` map. -/
def builtinNames : List String := ["react", "react/jsx-runtime", "recharts", "zod"]

/-- The mutable module-level state of `import-map.ts`: `moduleCache` and
`moduleRegistry`. -/
structure ImportMapState where
  moduleCache : List (String × ModVal)
  moduleRegistry : List (String × ModVal)
deriving DecidableEq, Repr

/-- The external effects available to the resolver: the values produced by
the four builtin dynamic imports, the key set and values of
`import.meta.glob` (`internalModuleLoaders`), the Tauri
`normalize(join(baseDir, specifier))` combination (`resolveRelativePath`),
and `loadAndCompileFile` (read + compile + dynamic import of a file, which
may throw). -/
structure ResolveEnv where
  builtinLoad : String → ModVal
  internalLoaderKeys : List String
  internalLoad : String → ModVal
  resolveRelativePath : String → String → String
  loadAndCompileFile : String → Except String ModVal

/-- `buildInternalCandidates(specifier)`: for an `@/` specifier, the nine
candidate keys tried in order. -/
def buildInternalCandidates (specifier : String) : List String :=
  if jsStartsWith specifier "@/" then
    let relative := String.mk (specifier.data.drop 2)
    let base := "/src/" ++ relative
    [base, base ++ ".ts", base ++ ".tsx", base ++ ".js", base ++ ".jsx",
      base ++ "/index.ts", base ++ "/index.tsx", base ++ "/index.js",
      base ++ "/index.jsx"]
  else []

/-- `loadInternalModule(specifier)`: the first candidate that has a
registered glob loader; `none` models `undefined`. -/
def loadInternalModule (env : ResolveEnv) (specifier : String) : Option ModVal :=
  (buildInternalCandidates specifier).findSome? fun c =>
    if c ∈ env.internalLoaderKeys then some (env.internalLoad c) else none

/-- `registerCustomToolModule(specifier, moduleRef)`: writes both the registry
and the module cache. -/
def registerCustomToolModule (st : ImportMapState) (specifier : String) (v : ModVal) :
    ImportMapState :=
  { moduleRegistry := mapSet st.moduleRegistry specifier v,
    moduleCache := mapSet st.moduleCache specifier v }

/-- `resolveCustomToolModule(specifier, baseDir?)`, step for step: cache lookup
by the literal specifier first; relative specifiers resolve through
`baseDir` (throwing without one), consult the `file:<absolutePath>` cache
key, compile-and-import on miss and cache under both the `file:` key and
the literal specifier; bare specifiers fall through registry → builtin
allow-list → internal `@/` aliases; anything else yields `none`
(`undefined`) without an error. -/
def resolveCustomToolModule (env : ResolveEnv) (st : ImportMapState)
    (specifier : String) (baseDir : Option String) :
    Except String (Option ModVal × ImportMapState) :=
  match mapGet st.moduleCache specifier with
  | some v => .ok (some v, st)
  | none =>
    if jsStartsWith specifier "./" || jsStartsWith specifier "../" then
      match baseDir with
      | none => .error ("Relative import requires base directory: " ++ specifier)
      | some bd =>
        let resolvedPath := env.resolveRelativePath bd specifier
        let cacheKey := "file:" ++ resolvedPath
        match mapGet st.moduleCache cacheKey with
        | some v => .ok (some v, st)
        | none =>
          match env.loadAndCompileFile resolvedPath with
          | .error e => .error e
          | .ok m =>
            .ok (some m,
              { st with
                moduleCache := mapSet (mapSet st.moduleCache cacheKey m) specifier m })
    else
      match mapGet st.moduleRegistry specifier with
      | some v => .ok (some v, { st with moduleCache := mapSet st.moduleCache specifier v })
      | none =>
        if specifier ∈ builtinNames then
          let v := env.builtinLoad specifier
          .ok (some v, { st with moduleCache := mapSet st.moduleCache specifier v })
        else
          match loadInternalModule env specifier with
          | some v =>
            .ok (some v, { st with moduleCache := mapSet st.moduleCache specifier v })
          | none => .ok (none, st)

/-! ## Compiled-module require shim
(`src/services/tools/custom-tool-compiler.ts`) -/

/-- The state visible to one compiled module's injected `__require`: its
per-module `__moduleCache` plus the global import-map state. -/
structure RequireState where
  localCache : List (String × ModVal)
  importMap : ImportMapState
deriving DecidableEq, Repr

/-- The injected `__require(specifier)` of `createCustomToolModuleUrl`:
per-module cache lookup, then the registered resolver; a falsy resolution
throws `` `Custom tool import not found: ${specifier}` `` — this is the
only place an unresolved specifier raises. -/
def requireShim (env : ResolveEnv) (baseDir : Option String) (st : RequireState)
    (specifier : String) : Except String (ModVal × RequireState) :=
  match mapGet st.localCache specifier with
  | some v => .ok (v, st)
  | none =>
    match resolveCustomToolModule env st.importMap specifier baseDir with
    | .error e => .error e
    | .ok (none, _) => .error ("Custom tool import not found: " ++ specifier)
    | .ok (some v, im) => .ok (v, ⟨mapSet st.localCache specifier v, im⟩)

/-- The `await __require(...)` call sites a compiled module's `__load`
factory actually executes, in order; the factory rejects at the first
failing call and completes when every executed call resolves. -/
def runRequires (env : ResolveEnv) (baseDir : Option String) :
    List String → RequireState → Except String RequireState
  | [], st => .ok st
  | s :: rest, st =>
    match requireShim env baseDir st s with
    | .error e => .error e
    | .ok (_, st') => runRequires env baseDir rest st'

/-- A concrete effect environment for closed evaluations: two tool
directories `/a` and `/b` each holding a `helper` file that compiles to a
distinct module value (`1` for `/a/helper`, `2` for `/b/helper`). -/
def twoDirEnv : ResolveEnv where
  builtinLoad := fun _ => 0
  internalLoaderKeys := []
  internalLoad := fun _ => 0
  resolveRelativePath := fun bd a => bd ++ "/" ++ String.mk (a.data.drop 2)
  loadAndCompileFile := fun p =>
    if p = "/a/helper" then .ok 1
    else if p = "/b/helper" then .ok 2
    else .error ("File not found: " ++ p)

/-! ## Discovery directories and loader
(`src/services/tools/custom-tool-refresh.ts`) -/

/-- Tauri `join(a, b)` modelled as slash concatenation. -/
def joinPath (a b : String) : String := a ++ "/" ++ b

/-- Tauri `dirname(p)`: drop the final path component and its slash. -/
def dirnamePath (p : String) : String :=
  String.mk ((p.data.reverse.dropWhile (· ≠ '/')).drop 1).reverse

/-- `CUSTOM_TOOLS_RELATIVE_DIR`. -/
def customToolsRelativeDir : String := ".talkcody/tools"

/-- `CUSTOM_TOOLS_SUFFIX`. -/
def customToolsSuffix : String := "/" ++ customToolsRelativeDir

/-- `normalizePathForSuffix(value)`: replace every backslash with a slash,
then strip any trailing run of slashes. -/
def normalizePathForSuffix (value : String) : String :=
  let slashed := value.data.map fun c => if c = '\\' then '/' else c
  String.mk (slashed.reverse.dropWhile (· = '/')).reverse

/-- `CustomToolLoadOptions`: both fields are `string | null`-ish; the code
tests them for JS truthiness, so the empty string counts as absent. -/
structure CustomToolLoadOptions where
  workspaceRoot : Option String
  customDirectory : Option String
deriving DecidableEq, Repr

/-- One scanned directory with its source tag. -/
structure DirSpec where
  path : String
  source : CustomToolSource
deriving DecidableEq, Repr

/-- The accumulator of `buildDirectories`: the `directories` array and the
`seen` set (kept as a list; membership is what the code uses). -/
structure BuildAcc where
  dirs : List DirSpec
  seen : List String
deriving DecidableEq, Repr

/-- The default export of a compiled tool module, as far as the loader's
validation looks at it: either not a (truthy) object, or an object with an
optional string `name` field; `payload` keeps distinct definitions
distinguishable. -/
inductive JsValue where
  | nonObject
  | object (name : Option String) (payload : Nat)
deriving DecidableEq, Repr

/-- A validated custom tool definition as stored into a `loaded` result:
its (possibly defaulted) name plus the opaque rest of the definition. -/
structure ToolDef where
  name : String
  payload : Nat
deriving DecidableEq, Repr

/-- `status ∈ {loaded, error}`. -/
inductive LoadStatus where
  | loaded
  | error
deriving DecidableEq, Repr

/-- `CustomToolLoadResult`. -/
structure CustomToolLoadResult where
  name : String
  filePath : String
  status : LoadStatus
  source : CustomToolSource
  error : Option String
  tool : Option ToolDef
deriving DecidableEq, Repr

/-- `CustomToolLoadSummary`. -/
structure CustomToolLoadSummary where
  tools : List CustomToolLoadResult
deriving DecidableEq, Repr

/-- The filesystem / path / compiler effects the loader consumes.
`normalize` returns `none` when Tauri `normalize` throws; `homeDir` is
`none` when `homeDir()` throws or yields a falsy value; `readDir`,
`readTextFile`, `compile` and `instantiate` (the
`createCustomToolModuleUrl` + dynamic-import + default-export step) fail
with a message. -/
structure LoaderEnv where
  normalize : String → Option String
  homeDir : Option String
  dirExists : String → Bool
  readDir : String → Except String (List DirEntry)
  readTextFile : String → Except String String
  compile : String → String → Except String String
  instantiate : String → String → String → Except String JsValue

/-- `resolveCustomToolsDirectory(customDirectory)`: normalize, keep as-is
when it already ends in the tools suffix, else append the relative dir and
normalize again; a `normalize` failure propagates (it is outside `addDir`'s
try/catch). -/
def resolveCustomToolsDirectory (env : LoaderEnv) (customDirectory : String) :
    Except String String :=
  match env.normalize customDirectory with
  | none => .error "normalize failed"
  | some normalized =>
    if endsWithCS (normalizePathForSuffix normalized) customToolsSuffix then
      .ok normalized
    else
      match env.normalize (joinPath customDirectory customToolsRelativeDir) with
      | none => .error "normalize failed"
      | some joined => .ok joined

/-- The `addDir` closure of `buildDirectories`: skip falsy paths, normalize
(a thrown error is caught and the directory skipped), deduplicate through
the `seen` set, else push. -/
def addDir (env : LoaderEnv) (acc : BuildAcc) (pathValue : Option String)
    (source : CustomToolSource) : BuildAcc :=
  match pathValue with
  | none => acc
  | some p =>
    if p = "" then acc
    else
      match env.normalize p with
      | none => acc
      | some resolved =>
        if resolved ∈ acc.seen then acc
        else ⟨acc.dirs ++ [⟨resolved, source⟩], acc.seen ++ [resolved]⟩

/-- A truthiness-guarded candidate: `if (root) addDir(join(root, REL), source)`;
a `none` root also covers a caught `homeDir()` failure. -/
def addDirIfTruthy (env : LoaderEnv) (acc : BuildAcc) (root : Option String)
    (source : CustomToolSource) : BuildAcc :=
  match root with
  | none => acc
  | some s =>
    if s = "" then acc
    else addDir env acc (some (joinPath s customToolsRelativeDir)) source

/-- The non-explicit arm of `buildDirectories`: workspace candidate, then
user-home candidate, both deduplicated through the shared accumulator. -/
def buildDirectoriesNoCustom (env : LoaderEnv) (opts : CustomToolLoadOptions) :
    BuildAcc :=
  addDirIfTruthy env (addDirIfTruthy env ⟨[], []⟩ opts.workspaceRoot .workspace)
    env.homeDir .user

/-- `buildDirectories(options)`: a truthy explicit directory short-circuits
to exactly the resolved custom directory; otherwise the workspace and home
candidates are built with dedup by normalized path. -/
def buildDirectories (env : LoaderEnv) (opts : CustomToolLoadOptions) :
    Except String (List DirSpec) :=
  match opts.customDirectory with
  | some c =>
    if c = "" then .ok (buildDirectoriesNoCustom env opts).dirs
    else
      match resolveCustomToolsDirectory env c with
      | .error e => .error e
      | .ok resolvedCustom => .ok (addDir env ⟨[], []⟩ (some resolvedCustom) .custom).dirs
  | none => .ok (buildDirectoriesNoCustom env opts).dirs

/-- The per-file pipeline inside `loadCustomTools`'s inner try: read,
compile, instantiate the module and validate/name-default its default
export. A failure at any step is the `Except.error` with that step's
message. -/
def processEntryPipeline (env : LoaderEnv) (filePath entryName : String) :
    Except String ToolDef := do
  let sourceCode ← env.readTextFile filePath
  let compiled ← env.compile sourceCode entryName
  let fileDir := dirnamePath filePath
  let definition ← env.instantiate compiled entryName fileDir
  match definition with
  | .nonObject => throw "Invalid tool export"
  | .object nm payload =>
    match nm with
    | none => pure ⟨getToolNameFromFile entryName, payload⟩
    | some s =>
      if s = "" then pure ⟨getToolNameFromFile entryName, payload⟩
      else pure ⟨s, payload⟩

/-- One kept entry's `CustomToolLoadResult`: the caught pipeline failure
becomes a per-file `error` result; success a `loaded` result carrying the
definition. -/
def processEntry (env : LoaderEnv) (dirPath : String) (source : CustomToolSource)
    (e : DirEntry) : CustomToolLoadResult :=
  let filePath := joinPath dirPath e.name
  match processEntryPipeline env filePath e.name with
  | .error msg =>
    ⟨getToolNameFromFile e.name, filePath, .error, source, some msg, none⟩
  | .ok t => ⟨t.name, filePath, .loaded, source, none, some t⟩

/-- The entry loop of `loadCustomTools` over one directory listing: one
result pushed per kept entry, skipped entries contribute nothing. -/
def processEntries (env : LoaderEnv) (dirPath : String)
    (source : CustomToolSource) : List DirEntry → List CustomToolLoadResult
  | [] => []
  | e :: rest =>
    if keepEntry e then
      processEntry env dirPath source e :: processEntries env dirPath source rest
    else processEntries env dirPath source rest

/-- One directory's results: a missing directory or a failing `readDir`
yields a single directory-level error result (path standing in for the
name); otherwise the entry loop runs. -/
def loadDirResults (env : LoaderEnv) (d : DirSpec) : List CustomToolLoadResult :=
  if env.dirExists d.path then
    match env.readDir d.path with
    | .error e => [⟨d.path, d.path, .error, d.source, some e, none⟩]
    | .ok entries => processEntries env d.path d.source entries
  else [⟨d.path, d.path, .error, d.source, some "Directory not found", none⟩]

/-- `loadCustomTools(options)`: build directories, then concatenate each
directory's results. -/
def loadCustomTools (env : LoaderEnv) (opts : CustomToolLoadOptions) :
    Except String CustomToolLoadSummary :=
  match buildDirectories env opts with
  | .error e => .error e
  | .ok dirs => .ok ⟨(dirs.map (loadDirResults env)).flatten⟩

/-- A concrete loader environment: the workspace tools directory
`/ws/.talkcody/tools` holds `good-tool.ts` (compiles and exports a valid
definition named `good`) and `bad-tool.ts` (fails to compile with a syntax
error); `normalize` is the identity and there is no user home. -/
def exampleLoaderEnv : LoaderEnv where
  normalize := fun s => some s
  homeDir := none
  dirExists := fun p => p = "/ws/.talkcody/tools"
  readDir := fun p =>
    if p = "/ws/.talkcody/tools" then
      .ok [⟨"good-tool.ts", true⟩, ⟨"bad-tool.ts", true⟩]
    else .error "ENOENT"
  readTextFile := fun p =>
    if p = "/ws/.talkcody/tools/good-tool.ts" then .ok "goodsrc"
    else if p = "/ws/.talkcody/tools/bad-tool.ts" then .ok "badsrc"
    else .error "ENOENT"
  compile := fun src _ =>
    if src = "goodsrc" then .ok "goodjs"
    else .error "SyntaxError: unexpected token"
  instantiate := fun code _ _ =>
    if code = "goodjs" then .ok (.object (some "good") 7)
    else .error "import failed"

/-! ## Theorems: permission store and adapter -/

theorem mapGet_set_self {V : Type} (m : List (String × V)) (k : String) (v : V) :
    mapGet (mapSet m k v) k = some v := by
  induction m with
  | nil => simp [mapSet, mapGet]
  | cons hd tl ih =>
    by_cases h : hd.1 = k
    · simp [mapSet, mapGet, h]
    · simp [mapSet, mapGet, h, ih]

theorem mapGet_set_ne {V : Type} (m : List (String × V)) (k k' : String) (v : V)
    (h : k ≠ k') : mapGet (mapSet m k v) k' = mapGet m k' := by
  induction m with
  | nil => simp [mapSet, mapGet, h]
  | cons hd tl ih =>
    by_cases hk : hd.1 = k
    · have hk' : ¬ hd.1 = k' := by rw [hk]; exact h
      simp [mapSet, mapGet, hk, hk', h]
    · by_cases hk' : hd.1 = k'
      · simp [mapSet, mapGet, hk, hk', Ne.symm h]
      · simp [mapSet, mapGet, hk, hk', ih]

theorem mapGet_delete_self {V : Type} (m : List (String × V)) (k : String) :
    mapGet (mapDelete m k) k = none := by
  induction m with
  | nil => simp [mapDelete, mapGet]
  | cons hd tl ih =>
    by_cases h : hd.1 = k
    · simpa [mapDelete, h] using ih
    · simpa [mapDelete, mapGet, h] using ih

theorem mapGet_delete_ne {V : Type} (m : List (String × V)) (k k' : String)
    (h : k' ≠ k) : mapGet (mapDelete m k) k' = mapGet m k' := by
  induction m with
  | nil => simp [mapDelete, mapGet]
  | cons hd tl ih =>
    by_cases hk : hd.1 = k
    · have hne : ¬ hd.1 = k' := by
        intro he; exact h (he ▸ hk)
      simpa [mapDelete, mapGet, hk, hne, Ne.symm h] using ih
    · by_cases hk' : hd.1 = k'
      · simp [mapDelete, mapGet, hk, hk', h]
      · simpa [mapDelete, mapGet, hk, hk'] using ih

/-- C5: `grantPermission(toolName, permissions)` replaces the tool's entire
grant record with exactly the new permission list and the fresh timestamp;
after granting `p1` and then `p2` to the same tool, the stored grant holds
exactly `p2` (and `t2`), nothing from `p1` — replacement, never union. -/
theorem grant_permission_replaces_grant (grants : GrantStore) (tool : String)
    (p1 p2 : List CustomToolPermission) (t1 t2 : Nat) :
    (∀ (g : GrantStore) (p : List CustomToolPermission) (t : Nat),
      getGrant (grantPermission g tool p t) tool = some ⟨tool, p, t⟩) ∧
    getGrant (grantPermission (grantPermission grants tool p1 t1) tool p2 t2) tool
      = some ⟨tool, p2, t2⟩ := by
  refine ⟨fun g p t => ?_, ?_⟩
  · exact mapGet_set_self g tool ⟨tool, p, t⟩
  · exact mapGet_set_self (grantPermission grants tool p1 t1) tool ⟨tool, p2, t2⟩

/-- C9: `checkCustomToolPermissions` with an empty requested list returns
`allowed = true` and an empty missing list for every grant store (also when
no grant exists), and the result for an empty request is independent of the
store — the store is consulted only for non-empty requests. -/
theorem check_permissions_empty_requested_allowed (grants grants' : GrantStore)
    (tool : String) :
    checkCustomToolPermissions grants tool [] = ⟨true, []⟩ ∧
    checkCustomToolPermissions grants tool [] =
      checkCustomToolPermissions grants' tool [] := by
  constructor <;> rfl

/-- C2 counterexample: for a definition with an empty declared permission
list, the adapter's execute wrapper leaves the permission store untouched —
the pre-existing grant (permissions `[net]`, timestamp `5`) survives, and
the store is not the one that replacement with the empty list at the
current time `10` would produce. The claim's "for every declared list
including the empty or absent one" is therefore false on the code. -/
theorem adapted_execute_empty_permissions_no_grant_cex :
    adaptedExecutePermissionPhase ⟨"t", some [], 0⟩ 10
        [("t", ⟨"t", [.net], 5⟩)] = [("t", ⟨"t", [.net], 5⟩)] ∧
    adaptedExecutePermissionPhase ⟨"t", none, 0⟩ 10
        [("t", ⟨"t", [.net], 5⟩)] = [("t", ⟨"t", [.net], 5⟩)] ∧
    grantPermission [("t", ⟨"t", [.net], 5⟩)] "t" [] 10
      ≠ [("t", ⟨"t", [.net], 5⟩)] := by
  refine ⟨rfl, rfl, ?_⟩
  decide

/-- C2 (amended): for every definition whose declared permission list is
non-empty, every invocation of the adapted execute wrapper replaces the
process-wide grant for the definition's name with exactly the declared
list (fresh timestamp) before the definition's own execute runs — the
store in effect at that moment is exactly the post-grant store, regardless
of any pre-existing grant; with an empty or absent declared list the store
is left untouched. -/
theorem adapted_execute_grants_nonempty_permissions_before_execute
    (defn : CustomToolDefinitionModel) (now : Nat) (grants : GrantStore)
    (h : defn.permissions.getD [] ≠ []) :
    adaptedExecute defn now grants =
      (grantPermission grants defn.name (defn.permissions.getD []) now,
        defn.executeResult) ∧
    getGrant (adaptedExecute defn now grants).1 defn.name
      = some ⟨defn.name, defn.permissions.getD [], now⟩ := by
  have hlen : (defn.permissions.getD []).length > 0 := by
    cases hp : defn.permissions.getD [] with
    | nil => exact absurd hp h
    | cons a l => simp
  constructor
  · simp [adaptedExecute, adaptedExecutePermissionPhase, hlen,
      ensureCustomToolPermissions]
  · simp [adaptedExecute, adaptedExecutePermissionPhase, hlen,
      ensureCustomToolPermissions, grantPermission, getGrant, mapGet_set_self]

/-- C2 witness: the amended theorem applied to a definition declaring
`[fs]`, over a store with a pre-existing different grant. -/
theorem adapted_execute_grants_nonempty_permissions_before_execute_witness :
    adaptedExecute ⟨"t", some [.fs], 7⟩ 10 [("t", ⟨"t", [.net], 5⟩)] =
      (grantPermission [("t", ⟨"t", [.net], 5⟩)] "t" [.fs] 10, 7) ∧
    getGrant (adaptedExecute ⟨"t", some [.fs], 7⟩ 10
        [("t", ⟨"t", [.net], 5⟩)]).1 "t" = some ⟨"t", [.fs], 10⟩ :=
  adapted_execute_grants_nonempty_permissions_before_execute
    ⟨"t", some [.fs], 7⟩ 10 [("t", ⟨"t", [.net], 5⟩)] (by decide)

/-! ## Theorems: discovery filename filter -/

/-- C6 counterexample: `my_tool.ts` is kept as a candidate by the code's
regex (`[-_]tool`), yet it does not end with the `-tool` suffix the claim
describes — the claim's "no other entry is kept" direction fails. -/
theorem underscore_tool_suffix_kept_cex :
    keepEntry ⟨"my_tool.ts", true⟩ = true ∧
    claimToolFileCandidate ⟨"my_tool.ts", true⟩ = false := by
  constructor <;> decide

/-- C6 (amended): a directory entry is kept as a candidate tool file iff it
is a file whose name case-insensitively ends with a `-tool` **or** `_tool`
suffix immediately before a `.ts` or `.tsx` extension and whose name does
not end in `.d.ts`; every mixed-case variant of either suffix is
recognized, every `.d.ts` file is excluded, and no other entry is kept. -/
theorem keep_entry_iff_tool_suffix (e : DirEntry) :
    keepEntry e =
      (e.isFile &&
        (endsWithCI e.name "-tool.ts" || endsWithCI e.name "_tool.ts" ||
          endsWithCI e.name "-tool.tsx" || endsWithCI e.name "_tool.tsx") &&
        !endsWithCS e.name ".d.ts") := by
  unfold keepEntry hasCustomToolExtension
  cases e.isFile <;> cases endsWithCS e.name ".d.ts" <;> simp

/-! ## Theorems: playground cache -/

/-- If two colon-free character lists, each terminated by `':'`, stand in a
prefix relation (the second extended by a tail), the lists are equal. -/
theorem colon_terminated_prefix_eq (a : List Char) :
    ∀ (b t : List Char), ':' ∉ a → ':' ∉ b →
      (a ++ [':']) <+: (b ++ ':' :: t) → a = b := by
  induction a with
  | nil =>
    intro b t _ hb h
    cases b with
    | nil => rfl
    | cons d b' =>
      rw [List.nil_append, List.cons_append, List.cons_prefix_cons] at h
      exact absurd (h.1 ▸ List.mem_cons_self d b') hb
  | cons c a' ih =>
    intro b t ha hb h
    cases b with
    | nil =>
      rw [List.cons_append, List.nil_append, List.cons_prefix_cons] at h
      exact absurd (h.1 ▸ List.mem_cons_self c a') ha
    | cons d b' =>
      rw [List.cons_append, List.cons_append, List.cons_prefix_cons] at h
      have ha' : ':' ∉ a' := fun hm => ha (List.mem_cons_of_mem c hm)
      have hb' : ':' ∉ b' := fun hm => hb (List.mem_cons_of_mem d hm)
      rw [h.1, ih b' t ha' hb' h.2]

/-- An entry key built for playground `A` always starts with `A ++ ":"`. -/
theorem jsStartsWith_playgroundCacheKey (A s : String) :
    jsStartsWith (playgroundCacheKey A s) (A ++ ":") = true := by
  have : (playgroundCacheKey A s).data = (A ++ ":").data ++ s.data := by
    simp [playgroundCacheKey, String.data_append]
  simp [jsStartsWith, this, List.isPrefixOf_iff_prefix, List.prefix_append]

/-- An entry key built for a colon-free playground id `B` never starts
with `A ++ ":"` for a different colon-free id `A`. -/
theorem jsStartsWith_playgroundCacheKey_ne (A B s : String)
    (hAB : A ≠ B) (hA : ':' ∉ A.data) (hB : ':' ∉ B.data) :
    jsStartsWith (playgroundCacheKey B s) (A ++ ":") = false := by
  by_contra h
  have hpre : (A ++ ":").data.isPrefixOf (playgroundCacheKey B s).data = true := by
    simpa [jsStartsWith] using h
  rw [List.isPrefixOf_iff_prefix] at hpre
  have hdA : (A ++ ":").data = A.data ++ [':'] := by
    simp [String.data_append]
  have hdB : (playgroundCacheKey B s).data = B.data ++ ':' :: s.data := by
    simp [playgroundCacheKey, String.data_append]
  rw [hdA, hdB] at hpre
  exact hAB (String.ext (colon_terminated_prefix_eq A.data B.data s.data hA hB hpre))

/-- C8 counterexample: for the distinct playground ids `"p"` and `"p:q"`,
clearing the cache for `"p"` also deletes the entry recorded under
`"p:q"`, because key matching is by raw string prefix `"p:"`. -/
theorem clear_playground_cache_prefix_collision_cex :
    ("p" : String) ≠ "p:q" ∧
    (recordPlaygroundModule ⟨[], []⟩ "p:q" "s" 0).cache
      = [(playgroundCacheKey "p:q" "s", 0)] ∧
    (clearPlaygroundCache (recordPlaygroundModule ⟨[], []⟩ "p:q" "s" 0) "p").cache
      = [] := by
  refine ⟨by decide, rfl, by decide⟩

/-- C8 (amended): for any two distinct playground ids `A` and `B` neither of
which contains the `':'` character, `clearPlaygroundCache A` removes every
cache entry recorded under `A` and leaves every entry recorded under `B`
unchanged. -/
theorem clear_playground_cache_selective (st : PlaygroundState) (A B : String)
    (hAB : A ≠ B) (hA : ':' ∉ A.data) (hB : ':' ∉ B.data) :
    (∀ (s : String) (v : ModVal),
      (playgroundCacheKey A s, v) ∉ (clearPlaygroundCache st A).cache) ∧
    (∀ (s : String) (v : ModVal),
      (playgroundCacheKey B s, v) ∈ (clearPlaygroundCache st A).cache ↔
        (playgroundCacheKey B s, v) ∈ st.cache) := by
  constructor
  · intro s v hmem
    rw [clearPlaygroundCache, List.mem_filter] at hmem
    have := hmem.2
    rw [jsStartsWith_playgroundCacheKey A s] at this
    simp at this
  · intro s v
    rw [clearPlaygroundCache, List.mem_filter]
    rw [jsStartsWith_playgroundCacheKey_ne A B s hAB hA hB]
    simp

/-- C8 witness: the amended theorem applied to ids `"a"`, `"b"` over a
cache holding one entry for each, evaluated at concrete specifiers. -/
theorem clear_playground_cache_selective_witness :
    (playgroundCacheKey "a" "s1", (0 : ModVal)) ∉
      (clearPlaygroundCache ⟨[], [(playgroundCacheKey "a" "s1", 0),
        (playgroundCacheKey "b" "s2", 1)]⟩ "a").cache ∧
    ((playgroundCacheKey "b" "s2", (1 : ModVal)) ∈
      (clearPlaygroundCache ⟨[], [(playgroundCacheKey "a" "s1", 0),
        (playgroundCacheKey "b" "s2", 1)]⟩ "a").cache ↔
      (playgroundCacheKey "b" "s2", (1 : ModVal)) ∈
        [(playgroundCacheKey "a" "s1", (0 : ModVal)),
          (playgroundCacheKey "b" "s2", 1)]) :=
  ⟨(clear_playground_cache_selective
      ⟨[], [(playgroundCacheKey "a" "s1", 0), (playgroundCacheKey "b" "s2", 1)]⟩
      "a" "b" (by decide) (by decide) (by decide)).1 "s1" 0,
   (clear_playground_cache_selective
      ⟨[], [(playgroundCacheKey "a" "s1", 0), (playgroundCacheKey "b" "s2", 1)]⟩
      "a" "b" (by decide) (by decide) (by decide)).2 "s2" 1⟩

/-- C10: `unregisterPlaygroundResolver(playgroundId)` removes only that
playground's resolver registration (other registrations are untouched),
but empties the entire playground module cache — every key recorded under
every playground id is gone afterwards. -/
theorem unregister_playground_resolver_clears_all_cache
    (st : PlaygroundState) (pid other : String) (h : other ≠ pid) :
    mapGet (unregisterPlaygroundResolver st pid).resolvers pid = none ∧
    mapGet (unregisterPlaygroundResolver st pid).resolvers other
      = mapGet st.resolvers other ∧
    (unregisterPlaygroundResolver st pid).cache = [] ∧
    (∀ (id s : String),
      mapGet (unregisterPlaygroundResolver st pid).cache
        (playgroundCacheKey id s) = none) :=
  ⟨mapGet_delete_self st.resolvers pid,
   mapGet_delete_ne st.resolvers pid other h,
   rfl,
   fun _ _ => rfl⟩

/-- C10 witness: concrete application with two registered resolvers and a
populated cache. -/
theorem unregister_playground_resolver_clears_all_cache_witness :
    mapGet (unregisterPlaygroundResolver
        ⟨[("a", 1), ("b", 2)], [(playgroundCacheKey "b" "s", 9)]⟩ "a").resolvers "a"
      = none ∧
    mapGet (unregisterPlaygroundResolver
        ⟨[("a", 1), ("b", 2)], [(playgroundCacheKey "b" "s", 9)]⟩ "a").resolvers "b"
      = mapGet [("a", 1), ("b", 2)] "b" ∧
    (unregisterPlaygroundResolver
        ⟨[("a", 1), ("b", 2)], [(playgroundCacheKey "b" "s", 9)]⟩ "a").cache = [] ∧
    (∀ (id s : String),
      mapGet (unregisterPlaygroundResolver
          ⟨[("a", 1), ("b", 2)], [(playgroundCacheKey "b" "s", 9)]⟩ "a").cache
        (playgroundCacheKey id s) = none) :=
  unregister_playground_resolver_clears_all_cache
    ⟨[("a", 1), ("b", 2)], [(playgroundCacheKey "b" "s", 9)]⟩ "a" "b" (by decide)

/-! ## Theorems: module resolver -/

/-- C1: trace of the collision. Resolving `./helper` from base directory
`/a` (first tool file) loads `/a/helper` (module value `1`) and caches it
under both `file:/a/helper` and the literal text `./helper`. Resolving
`./helper` from base directory `/b` (second tool file) is then answered
from the literal-text cache entry created by the first resolution: it
returns module `1` even though `/b/helper` compiles to module `2`, leaves
the state unchanged, and never creates a `file:/b/helper` entry. This
refutes the claimed invariant on the code as written. -/
theorem resolve_relative_specifier_alias_cache_collision :
    resolveCustomToolModule twoDirEnv ⟨[], []⟩ "./helper" (some "/a")
      = .ok (some 1, ⟨[("file:/a/helper", 1), ("./helper", 1)], []⟩) ∧
    resolveCustomToolModule twoDirEnv
        ⟨[("file:/a/helper", 1), ("./helper", 1)], []⟩ "./helper" (some "/b")
      = .ok (some 1, ⟨[("file:/a/helper", 1), ("./helper", 1)], []⟩) ∧
    twoDirEnv.loadAndCompileFile "/b/helper" = .ok 2 ∧
    mapGet [("file:/a/helper", (1 : ModVal)), ("./helper", 1)] "file:/b/helper"
      = none :=
  ⟨rfl, rfl, rfl, rfl⟩

/-- Every `__require` call whose specifier is already in the global module
cache succeeds and leaves the global import-map state untouched. -/
theorem runRequires_ok_of_cached (env : ResolveEnv) (b : Option String) :
    ∀ (specs : List String) (lc : List (String × ModVal)) (st : ImportMapState),
      (∀ s ∈ specs, (mapGet st.moduleCache s).isSome = true) →
      ∃ lc', runRequires env b specs ⟨lc, st⟩ = .ok ⟨lc', st⟩ := by
  intro specs
  induction specs with
  | nil => intro lc st _; exact ⟨lc, rfl⟩
  | cons s rest ih =>
    intro lc st h
    have hs := h s (List.mem_cons_self s rest)
    obtain ⟨v, hv⟩ := Option.isSome_iff_exists.mp hs
    have hrest : ∀ x ∈ rest, (mapGet st.moduleCache x).isSome = true :=
      fun x hx => h x (List.mem_cons_of_mem s hx)
    match hlc : mapGet lc s with
    | some w =>
      obtain ⟨lc', hrun⟩ := ih lc st hrest
      exact ⟨lc', by simp [runRequires, requireShim, hlc, hrun]⟩
    | none =>
      obtain ⟨lc', hrun⟩ := ih (mapSet lc s v) st hrest
      exact ⟨lc', by
        simp [runRequires, requireShim, hlc, resolveCustomToolModule, hv, hrun]⟩

/-- C3: a bare specifier matching no cache entry, no registered module, no
builtin and no internal alias resolves to `none` (`undefined`) with no
error and no state change; the injected `__require` throws
`Custom tool import not found` only when actually invoked with that
specifier; and a module factory whose executed require calls avoid the
failing specifier (each hitting the module cache) completes successfully. -/
theorem unknown_bare_specifier_lazy_failure
    (env : ResolveEnv) (st : ImportMapState) (lc : List (String × ModVal))
    (specifier : String) (b : Option String)
    (h1 : jsStartsWith specifier "./" = false)
    (h2 : jsStartsWith specifier "../" = false)
    (h3 : mapGet st.moduleCache specifier = none)
    (h4 : mapGet st.moduleRegistry specifier = none)
    (h5 : specifier ∉ builtinNames)
    (h6 : loadInternalModule env specifier = none)
    (h0 : mapGet lc specifier = none) :
    resolveCustomToolModule env st specifier b = .ok (none, st) ∧
    requireShim env b ⟨lc, st⟩ specifier
      = .error ("Custom tool import not found: " ++ specifier) ∧
    (∀ specs : List String, specifier ∉ specs →
      (∀ s ∈ specs, (mapGet st.moduleCache s).isSome = true) →
      ∃ lc', runRequires env b specs ⟨lc, st⟩ = .ok ⟨lc', st⟩) := by
  have hres : resolveCustomToolModule env st specifier b = .ok (none, st) := by
    simp [resolveCustomToolModule, h1, h2, h3, h4, h5, h6]
  refine ⟨hres, ?_, ?_⟩
  · simp [requireShim, h0, hres]
  · intro specs _ hcached
    exact runRequires_ok_of_cached env b specs lc st hcached

/-- C3 witness: the unknown specifier `left-pad` over a state whose module
cache already holds `m1`; the factory that only requires `m1` completes. -/
theorem unknown_bare_specifier_lazy_failure_witness :
    resolveCustomToolModule twoDirEnv ⟨[("m1", 5)], []⟩ "left-pad" none
      = .ok (none, ⟨[("m1", 5)], []⟩) ∧
    requireShim twoDirEnv none ⟨[], ⟨[("m1", 5)], []⟩⟩ "left-pad"
      = .error ("Custom tool import not found: " ++ "left-pad") ∧
    (∃ lc', runRequires twoDirEnv none ["m1"] ⟨[], ⟨[("m1", 5)], []⟩⟩
      = .ok ⟨lc', ⟨[("m1", 5)], []⟩⟩) := by
  have h := unknown_bare_specifier_lazy_failure twoDirEnv ⟨[("m1", 5)], []⟩ []
    "left-pad" none (by decide) (by decide) (by decide) (by decide)
    (by decide) (by decide) (by decide)
  exact ⟨h.1, h.2.1, h.2.2 ["m1"] (by decide) (by decide)⟩

/-! ## Theorems: discovery directories and loader -/

theorem joinPath_inj_right (d b b' : String) (h : joinPath d b = joinPath d b') :
    b = b' := by
  have hd := congrArg String.data h
  simp [joinPath, String.data_append] at hd
  exact String.ext hd

theorem processEntry_filePath (env : LoaderEnv) (dirPath : String)
    (source : CustomToolSource) (e : DirEntry) :
    (processEntry env dirPath source e).filePath = joinPath dirPath e.name := by
  cases h : processEntryPipeline env (joinPath dirPath e.name) e.name <;>
    simp [processEntry, h]

theorem processEntries_filter_not_mem (env : LoaderEnv) (dirPath : String)
    (source : CustomToolSource) (nm : String) :
    ∀ entries : List DirEntry, nm ∉ entries.map DirEntry.name →
      (processEntries env dirPath source entries).filter
        (fun r => r.filePath == joinPath dirPath nm) = [] := by
  intro entries
  induction entries with
  | nil => intro _; rfl
  | cons hd rest ih =>
    intro h
    have hname : hd.name ≠ nm := by
      intro he; exact h (by simp [he])
    have hrest : nm ∉ rest.map DirEntry.name := by
      intro hm; exact h (by simp [hm])
    cases hk : keepEntry hd with
    | false => simpa [processEntries, hk] using ih hrest
    | true =>
      have hfalse :
          ((processEntry env dirPath source hd).filePath
            == joinPath dirPath nm) = false := by
        rw [processEntry_filePath]
        simp only [beq_eq_false_iff_ne, ne_eq]
        intro he
        exact hname (joinPath_inj_right dirPath hd.name nm he)
      simpa [processEntries, hk, hfalse] using ih hrest

theorem addDir_invariant (env : LoaderEnv) (acc : BuildAcc)
    (pathValue : Option String) (source : CustomToolSource)
    (h1 : acc.dirs.map DirSpec.path = acc.seen) (h2 : acc.seen.Nodup) :
    (addDir env acc pathValue source).dirs.map DirSpec.path
        = (addDir env acc pathValue source).seen ∧
      (addDir env acc pathValue source).seen.Nodup := by
  cases pathValue with
  | none => exact ⟨h1, h2⟩
  | some p =>
    by_cases hp : p = ""
    · simpa [addDir, hp] using ⟨h1, h2⟩
    · cases hn : env.normalize p with
      | none => simpa [addDir, hp, hn] using ⟨h1, h2⟩
      | some resolved =>
        by_cases hr : resolved ∈ acc.seen
        · simpa [addDir, hp, hn, hr] using ⟨h1, h2⟩
        · constructor
          · simp [addDir, hp, hn, hr, h1]
          · simp [addDir, hp, hn, hr, List.nodup_append, h2,
              List.disjoint_singleton, hr]

theorem addDirIfTruthy_invariant (env : LoaderEnv) (acc : BuildAcc)
    (root : Option String) (source : CustomToolSource)
    (h1 : acc.dirs.map DirSpec.path = acc.seen) (h2 : acc.seen.Nodup) :
    (addDirIfTruthy env acc root source).dirs.map DirSpec.path
        = (addDirIfTruthy env acc root source).seen ∧
      (addDirIfTruthy env acc root source).seen.Nodup := by
  cases root with
  | none => exact ⟨h1, h2⟩
  | some s =>
    by_cases hs : s = ""
    · simpa [addDirIfTruthy, hs] using ⟨h1, h2⟩
    · simpa [addDirIfTruthy, hs] using
        addDir_invariant env acc (some (joinPath s customToolsRelativeDir))
          source h1 h2

theorem buildDirectoriesNoCustom_invariant (env : LoaderEnv)
    (opts : CustomToolLoadOptions) :
    (buildDirectoriesNoCustom env opts).dirs.map DirSpec.path
        = (buildDirectoriesNoCustom env opts).seen ∧
      (buildDirectoriesNoCustom env opts).seen.Nodup := by
  have h0 : (BuildAcc.mk [] []).dirs.map DirSpec.path = (BuildAcc.mk [] []).seen
      ∧ (BuildAcc.mk [] []).seen.Nodup := ⟨rfl, List.nodup_nil⟩
  have h1 := addDirIfTruthy_invariant env ⟨[], []⟩ opts.workspaceRoot .workspace
    h0.1 h0.2
  exact addDirIfTruthy_invariant env _ env.homeDir .user h1.1 h1.2

/-- C7: when a truthy explicit custom directory is given and its resolution
and normalization succeed, exactly that one directory (source `custom`) is
scanned — the workspace and home candidates are never consulted, so an
explicit directory equal in normalized form to the implied workspace tools
directory yields one scan; and in every case the scanned directory list is
deduplicated by normalized path (pairwise-distinct paths). -/
theorem build_directories_explicit_and_dedup :
    (∀ (env : LoaderEnv) (opts : CustomToolLoadOptions) (c r n : String),
      opts.customDirectory = some c → c ≠ "" →
      resolveCustomToolsDirectory env c = .ok r → r ≠ "" →
      env.normalize r = some n →
      buildDirectories env opts = .ok [⟨n, .custom⟩]) ∧
    (∀ (env : LoaderEnv) (opts : CustomToolLoadOptions) (dirs : List DirSpec),
      buildDirectories env opts = .ok dirs → (dirs.map DirSpec.path).Nodup) := by
  constructor
  · intro env opts c r n hc hce hres hre hn
    simp [buildDirectories, hc, hce, hres, addDir, hre, hn]
  · intro env opts dirs h
    cases hc : opts.customDirectory with
    | none =>
      rw [buildDirectories, hc] at h
      have hinv := buildDirectoriesNoCustom_invariant env opts
      have : dirs = (buildDirectoriesNoCustom env opts).dirs := by
        cases h; rfl
      rw [this, hinv.1]
      exact hinv.2
    | some c =>
      by_cases hce : c = ""
      · simp only [buildDirectories, hc, hce, if_true] at h
        have hinv := buildDirectoriesNoCustom_invariant env opts
        have : dirs = (buildDirectoriesNoCustom env opts).dirs := by
          cases h; rfl
        rw [this, hinv.1]
        exact hinv.2
      · simp only [buildDirectories, hc, hce, if_false] at h
        cases hres : resolveCustomToolsDirectory env c with
        | error e => rw [hres] at h; cases h
        | ok r =>
          rw [hres] at h
          have hinv := addDir_invariant env ⟨[], []⟩ (some r) .custom rfl
            List.nodup_nil
          have : dirs = (addDir env ⟨[], []⟩ (some r) .custom).dirs := by
            cases h; rfl
          rw [this, hinv.1]
          exact hinv.2

/-- C4: per-file isolation of `loadCustomTools`. (1) In any directory
listing with distinct entry names, each kept entry contributes exactly one
result — filtering the directory's results by that file's path yields
precisely the result computed from that file alone, independent of every
other file's fate. (2) A pipeline failure (read, compile, import, or
validation of the default export) at a file yields that file's single
`error` result with the descriptive message. (3) Concretely, a directory
with one valid file and one syntax-error file yields exactly the valid
tool loaded plus exactly one error entry for the invalid file. -/
theorem load_custom_tools_file_isolation :
    (∀ (env : LoaderEnv) (dirPath : String) (source : CustomToolSource)
        (entries : List DirEntry) (e : DirEntry),
      e ∈ entries → keepEntry e = true → (entries.map DirEntry.name).Nodup →
      (processEntries env dirPath source entries).filter
          (fun r => r.filePath == joinPath dirPath e.name)
        = [processEntry env dirPath source e]) ∧
    (∀ (env : LoaderEnv) (dirPath : String) (source : CustomToolSource)
        (e : DirEntry) (msg : String),
      processEntryPipeline env (joinPath dirPath e.name) e.name = .error msg →
      processEntry env dirPath source e
        = ⟨getToolNameFromFile e.name, joinPath dirPath e.name, .error, source,
            some msg, none⟩) ∧
    loadCustomTools exampleLoaderEnv ⟨some "/ws", none⟩
      = .ok ⟨[⟨"good", "/ws/.talkcody/tools/good-tool.ts", .loaded, .workspace,
            none, some ⟨"good", 7⟩⟩,
          ⟨"bad-tool", "/ws/.talkcody/tools/bad-tool.ts", .error, .workspace,
            some "SyntaxError: unexpected token", none⟩]⟩ := by
  refine ⟨?_, ?_, ?_⟩
  · intro env dirPath source entries e hmem hkeep hnd
    induction entries with
    | nil => cases hmem
    | cons hd rest ih =>
      rw [List.map_cons, List.nodup_cons] at hnd
      rcases List.mem_cons.mp hmem with he | he
      · subst he
        have htrue : ((processEntry env dirPath source e).filePath
            == joinPath dirPath e.name) = true := by
          simp [processEntry_filePath]
        simp [processEntries, hkeep, List.filter_cons, htrue,
          processEntries_filter_not_mem env dirPath source e.name rest hnd.1]
      · have hne : hd.name ≠ e.name := by
          intro heq
          exact hnd.1 (heq ▸ List.mem_map_of_mem DirEntry.name he)
        cases hk : keepEntry hd with
        | false => simpa [processEntries, hk] using ih he hnd.2
        | true =>
          have hfalse : ((processEntry env dirPath source hd).filePath
              == joinPath dirPath e.name) = false := by
            rw [processEntry_filePath]
            simp only [beq_eq_false_iff_ne, ne_eq]
            intro heq
            exact hne (joinPath_inj_right dirPath hd.name e.name heq)
          simpa [processEntries, hk, List.filter_cons, hfalse]
            using ih he hnd.2
  · intro env dirPath source e msg h
    simp [processEntry, h]
  · rfl

/-- C4 witness: part (1) of the theorem applied to the concrete two-file
directory listing of `exampleLoaderEnv` at the valid file, and part (2)
applied at the syntax-error file. -/
theorem load_custom_tools_file_isolation_witness :
    (processEntries exampleLoaderEnv "/ws/.talkcody/tools" .workspace
        [⟨"good-tool.ts", true⟩, ⟨"bad-tool.ts", true⟩]).filter
        (fun r => r.filePath
          == joinPath "/ws/.talkcody/tools" "good-tool.ts")
      = [processEntry exampleLoaderEnv "/ws/.talkcody/tools" .workspace
          ⟨"good-tool.ts", true⟩] ∧
    processEntry exampleLoaderEnv "/ws/.talkcody/tools" .workspace
        ⟨"bad-tool.ts", true⟩
      = ⟨getToolNameFromFile "bad-tool.ts",
          joinPath "/ws/.talkcody/tools" "bad-tool.ts", .error, .workspace,
          some "SyntaxError: unexpected token", none⟩ :=
  ⟨load_custom_tools_file_isolation.1 exampleLoaderEnv "/ws/.talkcody/tools"
      .workspace [⟨"good-tool.ts", true⟩, ⟨"bad-tool.ts", true⟩]
      ⟨"good-tool.ts", true⟩ (by decide) (by decide) (by decide),
   load_custom_tools_file_isolation.2.1 exampleLoaderEnv "/ws/.talkcody/tools"
      .workspace ⟨"bad-tool.ts", true⟩ "SyntaxError: unexpected token" rfl⟩

/-- C7 witness: an explicit directory `/ws/.talkcody/tools` — equal in
normalized form to the implied workspace tools directory for workspace
`/ws` — produces exactly one scanned directory; its path list is Nodup. -/
theorem build_directories_explicit_and_dedup_witness :
    buildDirectories exampleLoaderEnv ⟨some "/ws", some "/ws/.talkcody/tools"⟩
      = .ok [⟨"/ws/.talkcody/tools", .custom⟩] ∧
    (([⟨"/ws/.talkcody/tools", .custom⟩] : List DirSpec).map DirSpec.path).Nodup := by
  have ha := build_directories_explicit_and_dedup.1 exampleLoaderEnv
    ⟨some "/ws", some "/ws/.talkcody/tools"⟩ "/ws/.talkcody/tools"
    "/ws/.talkcody/tools" "/ws/.talkcody/tools" rfl (by decide) rfl
    (by decide) rfl
  exact ⟨ha, build_directories_explicit_and_dedup.2 exampleLoaderEnv
    ⟨some "/ws", some "/ws/.talkcody/tools"⟩ [⟨"/ws/.talkcody/tools", .custom⟩] ha⟩

end TalkCody
